import Mathlib

/-!
Verification of the repository file-discovery and content-retrieval subsystem
of the `mcpcode` MCP server.

The TypeScript source is shallowly embedded:
* JavaScript strings become Lean `String`; character-level operations
  (`split`, `join`, extension extraction) are carried out on `String.data`.
* The external libraries `JSON.parse`, the `load` of `js-yaml`, and the
  YAML engine of `gray-matter` are oracle parameters: the code under
  verification only observes whether they succeed and which value or
  message they produce, so each theorem quantifies over them.
* The Octokit / fetch network surface is an `Env` record of pure
  functions; a thrown JavaScript `Error` becomes `Except.error` carrying a
  `JsError` (optional HTTP status plus message).
* Unbounded directory recursion is given explicit fuel; the theorems
  supply enough fuel for the paths they examine.
-/

namespace Mcpcode

/-- A thrown JavaScript error: Octokit request errors carry an HTTP
`status`; plain `new Error(msg)` has no status. -/
structure JsError where
  status : Option Nat
  message : String
deriving DecidableEq

/-- JavaScript `a || b` for an optional string: `undefined` and the empty
string are falsy and select the fallback. -/
def jsOrStr (o : Option String) (d : String) : String :=
  match o with
  | some s => if s = "" then d else s
  | none => d

/-- JS `String.prototype.trim`: strip leading and trailing whitespace
(carried out on the character list so that it evaluates in proofs). -/
def jsTrim (s : String) : String :=
  String.mk (((s.data.dropWhile Char.isWhitespace).reverse.dropWhile
    Char.isWhitespace).reverse)

/-! ### Character-list utilities

JavaScript `String.prototype.split(sep)` and `Array.prototype.join(sep)`
for one-character separators, modelled on `List Char`. -/

/-- Prepend a character to the first piece of a split result. -/
def consHead (c : Char) : List (List Char) → List (List Char)
  | [] => [[c]]
  | p :: ps => (c :: p) :: ps

/-- JS split: `splitOnChar sep cs` splits `cs` at every occurrence of `sep`
(JS `str.split(sep)`): the separators are dropped and empty pieces are
kept, so the result is always non-empty. -/
def splitOnChar (sep : Char) : List Char → List (List Char)
  | [] => [[]]
  | c :: cs =>
    if c = sep then
      [] :: splitOnChar sep cs
    else
      consHead c (splitOnChar sep cs)

/-- JS `Array.prototype.join(sep)` for a one-character separator. -/
def joinChar (sep : Char) : List (List Char) → List Char
  | [] => []
  | [l] => l
  | l :: ls => l ++ sep :: joinChar sep ls

/-- Strip an expected leading run of characters; models matching a fixed
scheme like `https://` at the start of a URL. -/
def dropLead : List Char → List Char → Option (List Char)
  | [], s => some s
  | _ :: _, [] => none
  | p :: ps, c :: cs => if c = p then dropLead ps cs else none

/-- Split off the host part of a URL remainder: everything before the
first `/`; the path keeps its leading `/`. -/
def hostSplit : List Char → List Char × List Char
  | [] => ([], [])
  | c :: cs =>
    if c = '/' then ([], c :: cs)
    else
      let r := hostSplit cs
      (c :: r.1, r.2)

/-! ### Document parser (`src/services/parser.ts`)

`DocumentParser` classifies and decodes text blobs.  The external parsers
(`JSON.parse`, the `load` of `js-yaml`, and the YAML engine used by
`gray-matter` for frontmatter) are supplied as a `ParserLib` oracle: the
embedded code only branches on whether they succeed. -/

/-- Type `DocumentFormat` from `parser.ts`. -/
inductive DocumentFormat where
  | json
  | markdown
  | yaml
  | text
  | auto
deriving DecidableEq

/-- The external parsing libraries, abstracted.  `α` is the type of
JavaScript values produced by `JSON.parse` / `yaml.load`; `yamlKV` is
the frontmatter engine of gray-matter, producing the preamble key-value
mapping. -/
structure ParserLib (α : Type) where
  jsonParse : String → Except String α
  yamlParse : String → Except String α
  yamlKV : String → List (String × String)

/-- Whether an external parse attempt succeeded (the `try`/`catch`
around `JSON.parse` / `yaml.load` in `detectFormat`). -/
def exOk {ε α : Type} : Except ε α → Bool
  | Except.ok _ => true
  | Except.error _ => false

/-- Embedding of `DocumentParser.getFileExtension` helper: the suffix of the path from
its last `.` (inclusive), or `none` when there is no dot. -/
def extSuffix : List Char → Option (List Char)
  | [] => none
  | c :: cs =>
    match extSuffix cs with
    | some r => some r
    | none => if c = '.' then some (c :: cs) else none

/-- Embedding of `getFileExtension` (identical private helper in `parser.ts` and the
GitHub service): `lastIndexOf('.')`, then `substring(lastDot).toLowerCase()`,
or the empty string when the path has no dot. -/
def getFileExtension (filePath : String) : String :=
  match extSuffix filePath.data with
  | some ext => String.mk (ext.map Char.toLower)
  | none => ""

/-- The extension-to-format table of `detectFormat` step 2. -/
def detectFromPath (filePath : String) : Option DocumentFormat :=
  let extension := getFileExtension filePath
  if extension = ".json" then some DocumentFormat.json
  else if extension = ".md" || extension = ".markdown" then some DocumentFormat.markdown
  else if extension = ".yaml" || extension = ".yml" then some DocumentFormat.yaml
  else if extension = ".txt" || extension = ".text" then some DocumentFormat.text
  else none

/-- Content sniffing of `detectFormat` (step 3 and the `text` default):
JSON-looking text that parses, then a `---` frontmatter marker, then
YAML-looking text that loads, else `text`. -/
def sniffContent (jOk yOk : String → Bool) (fileContent : String) : DocumentFormat :=
  let trimmed := jsTrim fileContent
  if (trimmed.startsWith "\x7b" || trimmed.startsWith "[") && jOk trimmed then
    DocumentFormat.json
  else if trimmed.startsWith "---" then
    DocumentFormat.markdown
  else if (trimmed.contains ':' && !trimmed.contains '\x7b') && yOk trimmed then
    DocumentFormat.yaml
  else
    DocumentFormat.text

/-- Embedding of `detectFormat` after the explicit-format check: the `if (filePath)`
block (the empty string is falsy in JS) followed by content sniffing. -/
def detectAfterExplicit (jOk yOk : String → Bool) (fileContent : String)
    (filePath : Option String) : DocumentFormat :=
  match filePath with
  | some p =>
    if p ≠ "" then
      match detectFromPath p with
      | some f => f
      | none => sniffContent jOk yOk fileContent
    else sniffContent jOk yOk fileContent
  | none => sniffContent jOk yOk fileContent

/-- Embedding of `DocumentParser.detectFormat`. -/
def detectFormat (jOk yOk : String → Bool) (fileContent : String)
    (filePath : Option String) (explicitFormat : Option DocumentFormat) : DocumentFormat :=
  match explicitFormat with
  | some f =>
    if f ≠ DocumentFormat.auto then f
    else detectAfterExplicit jOk yOk fileContent filePath
  | none => detectAfterExplicit jOk yOk fileContent filePath

/-! Spec-side format detection, written from the wording of the claim on the
priority chain (for the refinement theorem of C1): (1) explicit non-auto
format verbatim; (2) else the file-path extension table, unrecognized or
missing extension falls through; (3) else the content sniff chain; (4)
else `text`. -/

/-- The content-sniff chain of the claim, first match wins, as a partial
resolver. -/
def sniffSpec (jOk yOk : String → Bool) (text : String) : Option DocumentFormat :=
  let t := jsTrim text
  if (t.startsWith "\x7b" || t.startsWith "[") && jOk t then some DocumentFormat.json
  else if t.startsWith "---" then some DocumentFormat.markdown
  else if (t.contains ':' && !t.contains '\x7b') && yOk t then some DocumentFormat.yaml
  else none

/-- The documented priority chain of the claim, as an ordered list of
fallbacks. -/
def detectFormatSpec (jOk yOk : String → Bool) (text : String)
    (filePath : Option String) (explicitFormat : Option DocumentFormat) : DocumentFormat :=
  match explicitFormat with
  | some f =>
    if f ≠ DocumentFormat.auto then f
    else ((filePath.bind detectFromPath).getD
      ((sniffSpec jOk yOk text).getD DocumentFormat.text))
  | none =>
    (filePath.bind detectFromPath).getD
      ((sniffSpec jOk yOk text).getD DocumentFormat.text)

/-- Content of a `ParsedDocument`: a library value (json / yaml) or a
string (markdown body / plain text). -/
inductive DocContent (α : Type) where
  | value : α → DocContent α
  | str : String → DocContent α
deriving DecidableEq

/-- Type `ParsedDocument` from `parser.ts`.  `metadata` is `none` when the
field is left `undefined` (json / yaml / text); for markdown it is the
frontmatter mapping (empty when the document has no preamble). -/
structure ParsedDocument (α : Type) where
  format : DocumentFormat
  content : DocContent α
  metadata : Option (List (String × String))
  rawContent : String
deriving DecidableEq

/-- Frontmatter split of the first `---`-delimited block.  Modelled from
the spec: the `gray-matter` library is an external dependency, described
as "splits a leading delimited metadata preamble (if present) from body
text; preamble key-values become `metadata`".  Given the lines after an
opening `---` line, find the closing `---` line; return the preamble
lines and the body lines. -/
def splitFront : List (List Char) → Option (List (List Char) × List (List Char))
  | [] => none
  | l :: ls =>
    if l = ['-', '-', '-'] then some ([], ls)
    else
      match splitFront ls with
      | some (f, b) => some (l :: f, b)
      | none => none

/-- Modelled from the spec: the external `gray-matter` call.  A document
whose first line is `---` and that has a closing `---` line is split into
the preamble (parsed by the YAML engine into key-values) and the body;
any other document has empty metadata and is returned whole. -/
def matter (yamlKV : String → List (String × String)) (input : String) :
    List (String × String) × String :=
  match splitOnChar '\n' input.data with
  | [] => ([], input)
  | first :: rest =>
    if first = ['-', '-', '-'] then
      match splitFront rest with
      | some (front, bodyLines) =>
        (yamlKV (String.mk (joinChar '\n' front)),
         String.mk (joinChar '\n' bodyLines))
      | none => ([], input)
    else ([], input)

/-- Embedding of `DocumentParser.parseJSON`: parse failure is rethrown as a decode
error. -/
def parseJSON {α : Type} (lib : ParserLib α) (content : String) :
    Except String (ParsedDocument α) :=
  match lib.jsonParse content with
  | Except.ok v =>
    Except.ok ⟨DocumentFormat.json, DocContent.value v, none, content⟩
  | Except.error e => Except.error ("Failed to parse JSON: " ++ e)

/-- Embedding of `DocumentParser.parseMarkdown`: gray-matter split, body trimmed,
frontmatter key-values as metadata. -/
def parseMarkdown {α : Type} (lib : ParserLib α) (content : String) : ParsedDocument α :=
  let parsed := matter lib.yamlKV content
  ⟨DocumentFormat.markdown, DocContent.str (jsTrim parsed.2), some parsed.1, content⟩

/-- Embedding of `DocumentParser.parseYAML`: load failure is rethrown as a decode
error. -/
def parseYAML {α : Type} (lib : ParserLib α) (content : String) :
    Except String (ParsedDocument α) :=
  match lib.yamlParse content with
  | Except.ok v =>
    Except.ok ⟨DocumentFormat.yaml, DocContent.value v, none, content⟩
  | Except.error e => Except.error ("Failed to parse YAML: " ++ e)

/-- Embedding of `DocumentParser.parseText`: never fails. -/
def parseText {α : Type} (content : String) : ParsedDocument α :=
  ⟨DocumentFormat.text, DocContent.str (jsTrim content), none, content⟩

/-- Embedding of `DocumentParser.parseDocument`: detect, then dispatch (the `switch`
with `text` as its default arm). -/
def parseDocument {α : Type} (lib : ParserLib α) (fileContent : String)
    (filePath : Option String) (format : Option DocumentFormat) :
    Except String (ParsedDocument α) :=
  match detectFormat (fun s => exOk (lib.jsonParse s)) (fun s => exOk (lib.yamlParse s))
      fileContent filePath format with
  | DocumentFormat.json => parseJSON lib fileContent
  | DocumentFormat.markdown => Except.ok (parseMarkdown lib fileContent)
  | DocumentFormat.yaml => parseYAML lib fileContent
  | DocumentFormat.text => Except.ok (parseText fileContent)
  | DocumentFormat.auto => Except.ok (parseText fileContent)

/-! ### GitHub service (`src/services/github.ts`)

The Octokit client is an `Env` record of pure endpoint functions: each
endpoint either yields the data the service reads from it or a `JsError`
(a thrown request error).  The `fetch` call and the Node base64 decoding are also
fields, so one record carries the whole ambient platform. -/

/-- One entry of a `repos.getContent` directory listing (the fields the
service reads). -/
structure ContentItem where
  type : String
  path : String
  sha : String
  size : Nat
  name : String
deriving DecidableEq

/-- A non-array `repos.getContent` response (single file or similar). -/
structure SingleContent where
  type : String
  path : String
  sha : String
  size : Nat
  name : String
  content : Option String
  encoding : Option String
deriving DecidableEq

/-- A `repos.getContent` response: a directory listing (JS array) or a
single object. -/
inductive ContentsResponse where
  | listing : List ContentItem → ContentsResponse
  | single : SingleContent → ContentsResponse
deriving DecidableEq

/-- A tree item as consumed by `scanRepository`: every field may be
absent (`item.path || item.name` with empty-string fallback in the source). -/
structure TreeEntry where
  path : Option String
  name : Option String
  sha : Option String
  size : Option Nat
deriving DecidableEq

/-- A `fetch` response (the fields the handler reads). -/
structure FetchResponse where
  ok : Bool
  statusText : String
  text : String
deriving DecidableEq

/-- Type `RepositoryFile` from `config/types.ts` (the wall-clock
`lastModified` stamp is outside the model; no claim mentions it). -/
structure RepositoryFile where
  path : String
  size : Nat
  sha : String
  downloadUrl : String
deriving DecidableEq

/-- The ambient platform: Octokit endpoints, base64 decoding, `fetch`. -/
structure Env where
  getAuthenticated : Except JsError String
  reposGet : String → String → Except JsError String
  getContentApi : String → String → String → Option String → Except JsError ContentsResponse
  getRef : String → String → String → Except JsError String
  getTree : String → String → String → Except JsError (List TreeEntry)
  b64decode : String → String
  fetchUrl : String → Except JsError FetchResponse

/-- Result of `GitHubService.verifyToken`. -/
structure TokenInfo where
  valid : Bool
  user : Option String
deriving DecidableEq

/-- Type `AccessResult` of `GitHubService.checkRepositoryAccess`. -/
structure AccessResult where
  accessible : Bool
  reason : Option String
deriving DecidableEq

/-- Embedding of `GitHubService.verifyToken`: identity lookup; a 401 is reported as
`valid: false`, any other failure is re-raised. -/
def verifyToken (env : Env) : Except JsError TokenInfo :=
  match env.getAuthenticated with
  | Except.ok login => Except.ok ⟨true, some login⟩
  | Except.error e =>
    if e.status = some 401 then Except.ok ⟨false, none⟩ else Except.error e

/-- Embedding of `GitHubService.getTokenUser`: the login, or `null` when the lookup
fails. -/
def getTokenUser (env : Env) : Option String :=
  match env.getAuthenticated with
  | Except.ok login => some login
  | Except.error _ => none

/-- The diagnostic reason produced on a 404 with a valid token. -/
def notFoundReason (u : String) : String :=
  "Repository not found or token doesn\x27t have access. Token user: " ++ u ++
    ". Ensure token has \x27repo\x27 scope for private repositories."

/-- Embedding of `GitHubService.checkRepositoryAccess`: direct repository lookup; on a
404, re-check the credential to pick a diagnostic reason; any other
failure is reported with its raw message (or `Unknown error` when that
message is empty, the JS fallback on a falsy `error.message`). -/
def checkRepositoryAccess (env : Env) (owner repo : String) :
    Except JsError AccessResult :=
  match env.reposGet owner repo with
  | Except.ok _ => Except.ok ⟨true, none⟩
  | Except.error e =>
    if e.status = some 404 then
      match verifyToken env with
      | Except.error e2 => Except.error e2
      | Except.ok ti =>
        if ti.valid = false then
          Except.ok ⟨false, some "Token is invalid or expired"⟩
        else
          Except.ok ⟨false, some (notFoundReason (jsOrStr ti.user "unknown"))⟩
    else
      Except.ok ⟨false, some (jsOrStr (some e.message) "Unknown error")⟩

/-- The warning logged when a nested directory listing fails. -/
def dirWarning (dirPath msg : String) : String :=
  "Failed to access directory " ++ dirPath ++ ": " ++ msg

/-- Embedding of `GitHubService.recursivelyGetFiles`: list a directory; emit files,
recurse into subdirectories.  The `try`/`catch` around the listing turns
any failure into a `console.warn` (returned here as the second
component) and an empty contribution — the error never escapes, so the
result type is a plain pair.  `fuel` bounds the recursion depth (the
TypeScript recursion is bounded by the finite repository tree). -/
def recursivelyGetFiles (env : Env) (owner repo : String) :
    Nat → String → String → List TreeEntry × List String
  | 0, _, _ => ([], [])
  | fuel + 1, dirPath, branch =>
    match env.getContentApi owner repo dirPath (some branch) with
    | Except.error e => ([], [dirWarning dirPath e.message])
    | Except.ok (ContentsResponse.single _) => ([], [])
    | Except.ok (ContentsResponse.listing items) =>
      let results := items.map fun item =>
        if item.type = "file" then
          ([TreeEntry.mk (some item.path) (some item.name) (some item.sha) (some item.size)],
           ([] : List String))
        else if item.type = "dir" then
          recursivelyGetFiles env owner repo fuel item.path branch
        else ([], [])
      ((results.map Prod.fst).flatten, (results.map Prod.snd).flatten)

/-- The per-item contribution inside the loop of `recursivelyGetFiles`. -/
def itemResult (env : Env) (owner repo : String) (fuel : Nat) (branch : String)
    (item : ContentItem) : List TreeEntry × List String :=
  if item.type = "file" then
    ([TreeEntry.mk (some item.path) (some item.name) (some item.sha) (some item.size)], [])
  else if item.type = "dir" then
    recursivelyGetFiles env owner repo fuel item.path branch
  else ([], [])

/-- The `catch` of `getRepositoryTree`: status-specific rewording of a
failed tree request.  (For a message-less error the TypeScript falls back
to `String(error)`; that stringification is outside the model and no
claim touches it.) -/
def treeCatch (env : Env) (owner repo : String) (e : JsError) : JsError :=
  if e.status = some 404 then
    ⟨none, "Repository \"" ++ owner ++ "/" ++ repo ++
      "\" not found or access denied. For private repositories, ensure: 1) Token has \x27repo\x27 scope enabled, 2) Token has access to this specific repository, 3) Repository name is correct. Current token user: " ++
      jsOrStr (getTokenUser env) "unknown"⟩
  else if e.status = some 401 then
    ⟨none, "Authentication failed. Please check your GITHUB_TOKEN is valid and has the necessary permissions (especially \"repo\" scope for private repositories)."⟩
  else if e.status = some 403 then
    ⟨none, "Access forbidden. Your token may not have permission to access this repository (check \"repo\" scope) or you may have hit rate limits."⟩
  else
    ⟨none, "Failed to get repository tree: " ++ e.message⟩

/-- Embedding of `GitHubService.getRepositoryTree`: access guard first (its failure
reason is thrown verbatim, before any tree call); then resolve the
default branch; for a non-empty path, list it and either recurse (a
directory) or return the single file; for the empty path, one recursive
tree request from the branch head. -/
def getRepositoryTree (env : Env) (fuel : Nat) (owner repo path : String) :
    Except JsError (List TreeEntry × String) :=
  match checkRepositoryAccess env owner repo with
  | Except.error e => Except.error e
  | Except.ok accessCheck =>
    if accessCheck.accessible = false then
      Except.error ⟨none,
        jsOrStr accessCheck.reason ("Cannot access repository " ++ owner ++ "/" ++ repo)⟩
    else
      match env.reposGet owner repo with
      | Except.error e => Except.error (treeCatch env owner repo e)
      | Except.ok defaultBranch =>
        if path ≠ "" then
          match env.getContentApi owner repo path (some defaultBranch) with
          | Except.error e => Except.error (treeCatch env owner repo e)
          | Except.ok (ContentsResponse.listing _) =>
            let r := recursivelyGetFiles env owner repo fuel path defaultBranch
            Except.ok (r.1, defaultBranch)
          | Except.ok (ContentsResponse.single d) =>
            Except.ok ([TreeEntry.mk (some d.path) (some d.name) (some d.sha) (some d.size)],
              defaultBranch)
        else
          match env.getRef owner repo ("heads/" ++ defaultBranch) with
          | Except.error e => Except.error (treeCatch env owner repo e)
          | Except.ok sha =>
            match env.getTree owner repo sha with
            | Except.error e => Except.error (treeCatch env owner repo e)
            | Except.ok tree => Except.ok (tree, defaultBranch)

/-- Embedding of `GitHubService.getFileContent`: fetch one path via the content API,
reject directories and non-files, decode the base64 payload; every
failure is rewrapped with a `Failed to get file content: ` context. -/
def getFileContent (env : Env) (owner repo path : String) : Except JsError String :=
  match env.getContentApi owner repo path none with
  | Except.error e =>
    Except.error ⟨none, "Failed to get file content: " ++ e.message⟩
  | Except.ok (ContentsResponse.listing _) =>
    Except.error ⟨none, "Failed to get file content: Path points to a directory, not a file"⟩
  | Except.ok (ContentsResponse.single d) =>
    if d.type ≠ "file" then
      Except.error ⟨none, "Failed to get file content: Path does not point to a file"⟩
    else
      match d.content, d.encoding with
      | some c, some enc =>
        if enc = "base64" then Except.ok (env.b64decode c)
        else Except.error
          ⟨none, "Failed to get file content: File content not available or encoding not supported"⟩
      | _, _ =>
        Except.error
          ⟨none, "Failed to get file content: File content not available or encoding not supported"⟩

/-- The default extension allow-list of `scanRepository`. -/
def defaultExtensions : List String := [".json", ".md", ".txt", ".yaml", ".yml"]

/-- The raw-content URL composed per matching entry. -/
def rawUrl (owner repo branch path : String) : String :=
  "https://raw.githubusercontent.com/" ++ owner ++ "/" ++ repo ++ "/" ++ branch ++ "/" ++ path

/-- The body of the filter loop of `scanRepository`: keep an entry whose
extension is allow-listed, enriched with its raw-content URL. -/
def scanSelect (owner repo defaultBranch : String) (fileExtensions : List String)
    (item : TreeEntry) : Option RepositoryFile :=
  let itemPath := jsOrStr item.path (jsOrStr item.name "")
  let extension := getFileExtension itemPath
  if extension ∈ fileExtensions then
    some ⟨itemPath, item.size.getD 0, jsOrStr item.sha "",
      rawUrl owner repo defaultBranch itemPath⟩
  else none

/-- The context wrap of the outer `catch` of `scanRepository`. -/
def scanWrap (e : JsError) : JsError :=
  ⟨none, "Failed to scan repository: " ++ e.message⟩

/-- Embedding of `GitHubService.scanRepository`: verify the credential, walk the tree,
filter by extension allow-list and enrich each match; every failure is
rewrapped with a `Failed to scan repository: ` context. -/
def scanRepository (env : Env) (fuel : Nat) (owner repo path : String)
    (fileExtensions : List String) : Except JsError (List RepositoryFile) :=
  match verifyToken env with
  | Except.error e => Except.error (scanWrap e)
  | Except.ok tokenInfo =>
    if tokenInfo.valid = false then
      Except.error (scanWrap
        ⟨none, "GitHub token is invalid or expired. Please check your GITHUB_TOKEN."⟩)
    else
      match getRepositoryTree env fuel owner repo path with
      | Except.error e => Except.error (scanWrap e)
      | Except.ok (tree, defaultBranch) =>
        Except.ok (tree.filterMap (scanSelect owner repo defaultBranch fileExtensions))

/-! ### Tool handlers (`tools/scan-repository/handler.ts`,
`tools/parse-document/handler.ts`) -/

/-- The `owner/repo` format error of the scan handler. -/
def repoFormatError : String :=
  "Repository must be in format \"owner/repo\" (e.g., \"octocat/Hello-World\")"

/-- Split a repository argument on `/` and keep the non-empty pieces
(`repository.split('/').filter(p => p.length > 0)`). -/
def repoParts (repository : String) : List String :=
  ((splitOnChar '/' repository.data).map String.mk).filter fun p => 0 < p.length

/-- The validation half of `scanRepositoryHandler`: reject unless the
split yields exactly two pieces whose trimmed forms are non-empty. -/
def parseRepoArg (repository : String) : Except String (String × String) :=
  let parts := repoParts repository
  if parts.length ≠ 2 then Except.error repoFormatError
  else
    let owner := parts.headD ""
    let repo := (parts.drop 1).headD ""
    let cleanOwner := jsTrim owner
    let cleanRepo := jsTrim repo
    if cleanOwner = "" ∨ cleanRepo = "" then Except.error repoFormatError
    else Except.ok (cleanOwner, cleanRepo)

/-- Embedding of `scanRepositoryHandler`: validate the repository argument, then scan
with the defaults filled in. -/
def scanRepositoryHandler (env : Env) (fuel : Nat) (repository : String)
    (path : Option String) (fileExtensions : Option (List String)) :
    Except JsError (List RepositoryFile) :=
  match parseRepoArg repository with
  | Except.error m => Except.error ⟨none, m⟩
  | Except.ok (cleanOwner, cleanRepo) =>
    scanRepository env fuel cleanOwner cleanRepo (path.getD "")
      (fileExtensions.getD defaultExtensions)

/-- The two URL components the parse-document handler reads. -/
structure URLParts where
  hostname : String
  pathname : String
deriving DecidableEq

/-- Host/path split after the scheme; a special-scheme URL with an empty
host is rejected. -/
def mkURL (rest : List Char) : Option URLParts :=
  let hp := hostSplit rest
  if hp.1 = [] then none else some ⟨String.mk hp.1, String.mk hp.2⟩

/-- Modelled from the platform: the WHATWG `new URL(..)` constructor,
restricted to the `http(s)://host/path` shapes this system produces and
consumes; anything else is the `Invalid URL` TypeError of the constructor,
here `none`. -/
def parseURL (s : String) : Option URLParts :=
  match dropLead "https://".data s.data with
  | some rest => mkURL rest
  | none =>
    match dropLead "http://".data s.data with
    | some rest => mkURL rest
    | none => none

/-- JS `url.pathname.split('/').filter(p => p.length > 0)`. -/
def urlSegs (pathname : String) : List String :=
  ((splitOnChar '/' pathname.data).map String.mk).filter fun p => 0 < p.length

/-- JS `Array.prototype.join('/')` over string segments. -/
def joinSegs (segs : List String) : String :=
  String.mk (joinChar '/' (segs.map String.data))

/-- The `Failed to download file from URL: ` context wrap of the
outer `catch` of the handler. -/
def dlWrap (m : String) : JsError :=
  ⟨none, "Failed to download file from URL: " ++ m⟩

/-- The download stage of `parseDocumentHandler` (its `try` block): parse
the locator; a `raw.githubusercontent.com` locator with at least four
segments is rerouted through the authenticated content API with
`(owner, repo, path)` re-derived from its segments; any other host is
fetched directly.  Returns the text and the file name extracted for
format detection. -/
def fetchContent (env : Env) (downloadUrl : String) :
    Except JsError (String × Option String) :=
  match parseURL downloadUrl with
  | none => Except.error ⟨none, "Invalid downloadUrl format: " ++ downloadUrl⟩
  | some url =>
    let pathParts := urlSegs url.pathname
    let detectedFilePath := pathParts.getLast?
    if url.hostname = "raw.githubusercontent.com" then
      if 4 ≤ pathParts.length then
        let owner := pathParts.headD ""
        let repo := (pathParts.drop 1).headD ""
        let filePath := joinSegs (pathParts.drop 3)
        match getFileContent env owner repo filePath with
        | Except.ok content => Except.ok (content, detectedFilePath)
        | Except.error e => Except.error (dlWrap e.message)
      else Except.error (dlWrap "Invalid raw.githubusercontent.com URL format")
    else
      match env.fetchUrl downloadUrl with
      | Except.error e => Except.error (dlWrap e.message)
      | Except.ok response =>
        if response.ok = false then
          Except.error (dlWrap ("Failed to download file from URL: " ++ response.statusText))
        else Except.ok (response.text, detectedFilePath)

/-- Embedding of `parseDocumentHandler`: require a locator, download, then decode
(decode errors propagate unwrapped). -/
def parseDocumentHandler {α : Type} (env : Env) (lib : ParserLib α)
    (downloadUrl : String) (fileType : Option DocumentFormat) :
    Except JsError (ParsedDocument α) :=
  if downloadUrl = "" then Except.error ⟨none, "downloadUrl is required"⟩
  else
    match fetchContent env downloadUrl with
    | Except.error e => Except.error e
    | Except.ok (content, detectedFilePath) =>
      match parseDocument lib content detectedFilePath fileType with
      | Except.ok d => Except.ok d
      | Except.error m => Except.error ⟨none, m⟩

/-- An environment that resolves a single file at `docs/report.md` of
`ownerX/repoY`, delivered base64-encoded. -/
def envC8 : Env :=
  ⟨Except.ok "octo",
   fun _ _ => Except.ok "main",
   fun o r p ref =>
     if o = "ownerX" ∧ r = "repoY" ∧ p = "docs/report.md" ∧ ref = none then
       Except.ok (ContentsResponse.single
         ⟨"file", "docs/report.md", "sha-x", 11, "report.md", some "aGVsbG8gd29ybGQ=",
          some "base64"⟩)
     else Except.error ⟨some 404, "Not Found"⟩,
   fun _ _ _ => Except.ok "headsha",
   fun _ _ _ => Except.ok [],
   fun _ => "hello world",
   fun _ => Except.error ⟨none, "no net"⟩⟩

/-- An environment whose plain fetch always answers a non-success
response. -/
def envC9 : Env :=
  ⟨Except.ok "octo",
   fun _ _ => Except.ok "main",
   fun _ _ _ _ => Except.error ⟨none, "unused"⟩,
   fun _ _ _ => Except.ok "headsha",
   fun _ _ _ => Except.ok [],
   fun s => s,
   fun _ => Except.ok ⟨false, "Not Found", ""⟩⟩

/-- A parser library whose underlying parsers reject every input. -/
def failLib : ParserLib Unit :=
  ⟨fun _ => Except.error "Unexpected token", fun _ => Except.error "bad indentation",
   fun _ => []⟩

/-- An environment whose repository lookup fails with a 500 carrying an
empty message. -/
def envC2cex : Env :=
  ⟨Except.ok "octo",
   fun _ _ => Except.error ⟨some 500, ""⟩,
   fun _ _ _ _ => Except.error ⟨none, "unused"⟩,
   fun _ _ _ => Except.error ⟨none, "unused"⟩,
   fun _ _ _ => Except.error ⟨none, "unused"⟩,
   fun s => s,
   fun _ => Except.error ⟨none, "unused"⟩⟩

/-- An environment with a valid credential where every repository lookup
is a 404. -/
def envC2w : Env :=
  ⟨Except.ok "octo",
   fun _ _ => Except.error ⟨some 404, "Not Found"⟩,
   fun _ _ _ _ => Except.error ⟨none, "unused"⟩,
   fun _ _ _ => Except.error ⟨none, "unused"⟩,
   fun _ _ _ => Except.error ⟨none, "unused"⟩,
   fun s => s,
   fun _ => Except.error ⟨none, "unused"⟩⟩

/-- An environment where listing `docs` succeeds but its subdirectory
`docs/secret` is forbidden. -/
def envC3 : Env :=
  ⟨Except.ok "octo",
   fun _ _ => Except.ok "main",
   fun _ _ p _ =>
     if p = "docs" then
       Except.ok (ContentsResponse.listing
         [⟨"file", "docs/a.md", "sha-a", 3, "a.md"⟩,
          ⟨"dir", "docs/secret", "sha-d", 0, "secret"⟩,
          ⟨"file", "docs/b.txt", "sha-b", 4, "b.txt"⟩])
     else Except.error ⟨some 403, "Access forbidden"⟩,
   fun _ _ _ => Except.ok "headsha",
   fun _ _ _ => Except.ok [],
   fun s => s,
   fun _ => Except.error ⟨none, "no net"⟩⟩

/-- An environment with a valid credential where every repository lookup
is a 404 but all tree endpoints would succeed if consulted. -/
def envC4 : Env :=
  ⟨Except.ok "octo",
   fun _ _ => Except.error ⟨some 404, "Not Found"⟩,
   fun _ _ _ _ => Except.ok (ContentsResponse.listing []),
   fun _ _ _ => Except.ok "headsha",
   fun _ _ _ => Except.ok [],
   fun s => s,
   fun _ => Except.error ⟨none, "no net"⟩⟩

/-- The scenario tree: `a.md`, `b.json`, `c.png`. -/
def treeScan : List TreeEntry :=
  [⟨some "a.md", none, some "sha-a", some 5⟩,
   ⟨some "b.json", none, some "sha-b", some 6⟩,
   ⟨some "c.png", none, some "sha-c", some 7⟩]

/-- An environment whose root-tree walk yields `treeScan` on branch
`main`. -/
def envScan : Env :=
  ⟨Except.ok "octo",
   fun _ _ => Except.ok "main",
   fun _ _ _ _ => Except.error ⟨none, "unused"⟩,
   fun _ _ _ => Except.ok "headsha",
   fun _ _ _ => Except.ok treeScan,
   fun s => s,
   fun _ => Except.error ⟨none, "no net"⟩⟩

/-! ### Library lemmas -/

theorem consHead_ne_nil (c : Char) (ls : List (List Char)) :
    consHead c ls ≠ [] := by
  cases ls <;> simp [consHead]

theorem splitOnChar_ne_nil (sep : Char) (cs : List Char) :
    splitOnChar sep cs ≠ [] := by
  induction cs with
  | nil => simp [splitOnChar]
  | cons c cs ih =>
    simp only [splitOnChar]
    split
    · simp
    · exact consHead_ne_nil c _

theorem splitOnChar_cons_sep (sep : Char) (cs : List Char) :
    splitOnChar sep (sep :: cs) = [] :: splitOnChar sep cs := by
  simp [splitOnChar]

/-- Splitting a separator-free piece followed by a separator peels off
that piece. -/
theorem splitOnChar_append_sep (sep : Char) (a b : List Char)
    (ha : sep ∉ a) :
    splitOnChar sep (a ++ sep :: b) = a :: splitOnChar sep b := by
  induction a with
  | nil => simp [splitOnChar]
  | cons c cs ih =>
    have hc : c ≠ sep := fun h => ha (h ▸ List.mem_cons_self c cs)
    have hcs : sep ∉ cs := fun h => ha (List.mem_cons_of_mem c h)
    rw [List.cons_append]
    simp only [splitOnChar, if_neg hc]
    rw [ih hcs]
    rfl

/-- Splitting a separator-free list yields just that list. -/
theorem splitOnChar_free (sep : Char) (l : List Char) (hl : sep ∉ l) :
    splitOnChar sep l = [l] := by
  induction l with
  | nil => rfl
  | cons c cs ih =>
    have hc : c ≠ sep := fun h => hl (h ▸ List.mem_cons_self c cs)
    have hcs : sep ∉ cs := fun h => hl (List.mem_cons_of_mem c h)
    simp only [splitOnChar, if_neg hc]
    rw [ih hcs]
    rfl

/-- Joining undoes splitting. -/
theorem joinChar_splitOnChar (sep : Char) (cs : List Char) :
    joinChar sep (splitOnChar sep cs) = cs := by
  induction cs with
  | nil => simp [splitOnChar, joinChar]
  | cons c cs ih =>
    simp only [splitOnChar]
    split
    · rename_i hc
      rcases h : splitOnChar sep cs with _ | ⟨p, ps⟩
      · exact absurd h (splitOnChar_ne_nil sep cs)
      · rw [h] at ih
        simp [joinChar, ih, hc]
    · rcases h : splitOnChar sep cs with _ | ⟨p, ps⟩
      · exact absurd h (splitOnChar_ne_nil sep cs)
      · rw [h] at ih
        cases ps with
        | nil => simpa [consHead, joinChar] using ih
        | cons q qs =>
          simp only [joinChar] at ih
          simp [consHead, joinChar, ih]

/-- Splitting a join of separator-free pieces recovers the pieces. -/
theorem splitOnChar_joinChar (sep : Char) (ls : List (List Char))
    (hne : ls ≠ []) (hfree : ∀ l ∈ ls, sep ∉ l) :
    splitOnChar sep (joinChar sep ls) = ls := by
  induction ls with
  | nil => exact absurd rfl hne
  | cons l ls ih =>
    match ls with
    | [] =>
      exact splitOnChar_free sep l (hfree l (List.mem_cons_self l []))
    | m :: ms =>
      have hstep : joinChar sep (l :: m :: ms) = l ++ sep :: joinChar sep (m :: ms) := rfl
      rw [hstep,
        splitOnChar_append_sep sep l _ (hfree l (List.mem_cons_self l _)),
        ih (by simp) (fun x hx => hfree x (List.mem_cons_of_mem l hx))]

/-- All pieces produced by `splitOnChar` are separator-free. -/
theorem splitOnChar_sep_free (sep : Char) (cs : List Char) :
    ∀ l ∈ splitOnChar sep cs, sep ∉ l := by
  induction cs with
  | nil =>
    intro l hl
    simp [splitOnChar] at hl
    simp [hl]
  | cons c cs ih =>
    intro l hl
    simp only [splitOnChar] at hl
    split at hl
    · cases hl with
      | head => simp
      | tail _ h => exact ih l h
    · rename_i hc
      rcases h : splitOnChar sep cs with _ | ⟨p, ps⟩
      · exact absurd h (splitOnChar_ne_nil sep cs)
      · rw [h] at hl
        simp only [consHead, List.mem_cons] at hl
        rcases hl with hl | hl
        · subst hl
          intro hmem
          cases hmem with
          | head => exact hc rfl
          | tail _ hm => exact ih p (h ▸ List.mem_cons_self p ps) hm
        · exact ih l (h ▸ List.mem_cons_of_mem p hl)

theorem dropLead_append (p s : List Char) : dropLead p (p ++ s) = some s := by
  induction p with
  | nil => rfl
  | cons c cs ih => simp [dropLead, ih]

theorem hostSplit_append (a b : List Char) (ha : '/' ∉ a) :
    hostSplit (a ++ '/' :: b) = (a, '/' :: b) := by
  induction a with
  | nil => simp [hostSplit]
  | cons c cs ih =>
    have hc : c ≠ '/' := fun h => ha (h ▸ List.mem_cons_self c cs)
    have hcs : '/' ∉ cs := fun h => ha (List.mem_cons_of_mem c h)
    simp [hostSplit, hc, ih hcs]

theorem string_data_append (a b : String) : (a ++ b).data = a.data ++ b.data := by
  cases a; cases b; rfl

theorem string_mk_data (s : String) : String.mk s.data = s := by
  cases s; rfl

theorem recursivelyGetFiles_listing (env : Env) (owner repo : String)
    (fuel : Nat) (dirPath branch : String) (items : List ContentItem)
    (h : env.getContentApi owner repo dirPath (some branch) =
      Except.ok (ContentsResponse.listing items)) :
    recursivelyGetFiles env owner repo (fuel + 1) dirPath branch =
      (((items.map (itemResult env owner repo fuel branch)).map Prod.fst).flatten,
       ((items.map (itemResult env owner repo fuel branch)).map Prod.snd).flatten) := by
  simp only [recursivelyGetFiles, h]
  rfl

theorem consHead_append (c : Char) (xs ys : List (List Char)) (hxs : xs ≠ []) :
    consHead c (xs ++ ys) = consHead c xs ++ ys := by
  cases xs with
  | nil => exact absurd rfl hxs
  | cons p ps => rfl

/-- Splitting concatenates across an explicit separator. -/
theorem splitOnChar_append (sep : Char) (a b : List Char) :
    splitOnChar sep (a ++ sep :: b) = splitOnChar sep a ++ splitOnChar sep b := by
  induction a with
  | nil => simp [splitOnChar]
  | cons c cs ih =>
    rw [List.cons_append]
    by_cases hc : c = sep
    · subst hc
      rw [splitOnChar_cons_sep, splitOnChar_cons_sep, ih, List.cons_append]
    · simp only [splitOnChar, if_neg hc]
      rw [ih, consHead_append c _ _ (splitOnChar_ne_nil sep cs)]

/-- Lemma: `splitFront` finds the first closing `---` line. -/
theorem splitFront_append (front rest : List (List Char))
    (h : ∀ l ∈ front, l ≠ ['-', '-', '-']) :
    splitFront (front ++ ['-', '-', '-'] :: rest) = some (front, rest) := by
  induction front with
  | nil => simp [splitFront]
  | cons l ls ih =>
    have hl : l ≠ ['-', '-', '-'] := h l (List.mem_cons_self l ls)
    rw [List.cons_append]
    simp only [splitFront, if_neg hl, ih (fun x hx => h x (List.mem_cons_of_mem l hx))]

/-- A document whose first line is not `---` passes through `matter`
unchanged with empty metadata. -/
theorem matter_no_preamble (yamlKV : String → List (String × String)) (input : String)
    (h : (splitOnChar '\n' input.data).headD [] ≠ ['-', '-', '-']) :
    matter yamlKV input = ([], input) := by
  rcases hsplit : splitOnChar '\n' input.data with _ | ⟨first, rest⟩
  · simp [matter, hsplit]
  · rw [hsplit] at h
    simp only [List.headD_cons] at h
    simp [matter, hsplit, h]

/-- Lemma: `matter` splits a well-formed frontmatter document into its preamble
key-values and its body. -/
theorem matter_preamble (yamlKV : String → List (String × String)) (pre body : String)
    (hpre : ∀ l ∈ splitOnChar '\n' pre.data, l ≠ ['-', '-', '-']) :
    matter yamlKV ("---\n" ++ pre ++ "\n---\n" ++ body) = (yamlKV pre, body) := by
  have hdoc : ("---\n" ++ pre ++ "\n---\n" ++ body).data =
      ['-', '-', '-'] ++ '\n' :: (pre.data ++ '\n' :: (['-', '-', '-'] ++ '\n' :: body.data)) := by
    simp only [string_data_append, List.append_assoc]
    rfl
  have hddd : splitOnChar '\n' ['-', '-', '-'] = [['-', '-', '-']] := by decide
  have hsplit : splitOnChar '\n' ("---\n" ++ pre ++ "\n---\n" ++ body).data =
      ['-', '-', '-'] ::
        (splitOnChar '\n' pre.data ++ ['-', '-', '-'] :: splitOnChar '\n' body.data) := by
    rw [hdoc]
    simp only [splitOnChar_append, hddd]
    simp
  simp only [matter]
  rw [hsplit]
  simp [splitFront_append _ _ hpre, joinChar_splitOnChar, string_mk_data]

/-! ### The claims -/

/-- C1: `detectFormat` resolves the format by the documented priority
chain, first match wins: an explicit non-`auto` format verbatim; else the
file-path extension table (`.json`, `.md`/`.markdown`, `.yaml`/`.yml`,
`.txt`/`.text`, anything else falls through); else the content sniff on
the trimmed text (JSON-looking text that parses, the `---` marker, then
YAML-looking text that loads); else `text`.  Detection is a total
function, so it never raises, and a JSON-looking text that fails to parse
falls through to the later steps of the same chain. -/
theorem claim_C1 (jOk yOk : String → Bool) (fileContent : String)
    (filePath : Option String) (explicitFormat : Option DocumentFormat) :
    detectFormat jOk yOk fileContent filePath explicitFormat =
      detectFormatSpec jOk yOk fileContent filePath explicitFormat := by
  have hsniff : sniffContent jOk yOk fileContent =
      (sniffSpec jOk yOk fileContent).getD DocumentFormat.text := by
    by_cases h1 : (((jsTrim fileContent).startsWith "\x7b" || (jsTrim fileContent).startsWith "[")
        && jOk (jsTrim fileContent)) = true
    · simp [sniffContent, sniffSpec, h1]
    · by_cases h2 : (jsTrim fileContent).startsWith "---" = true
      · simp [sniffContent, sniffSpec, h1, h2]
      · by_cases h3 : (((jsTrim fileContent).contains ':' && !(jsTrim fileContent).contains '\x7b')
            && yOk (jsTrim fileContent)) = true
        · simp [sniffContent, sniffSpec, h1, h2, h3]
        · simp [sniffContent, sniffSpec, h1, h2, h3]
  have hrest : ∀ fp, detectAfterExplicit jOk yOk fileContent fp =
      (fp.bind detectFromPath).getD ((sniffSpec jOk yOk fileContent).getD DocumentFormat.text) := by
    intro fp
    cases fp with
    | none => simpa [detectAfterExplicit] using hsniff
    | some p =>
      by_cases hp : p = ""
      · subst hp
        have h0 : detectFromPath "" = none := by decide
        simpa [detectAfterExplicit, h0] using hsniff
      · cases hdp : detectFromPath p with
        | none => simpa [detectAfterExplicit, hp, hdp] using hsniff
        | some f => simp [detectAfterExplicit, hp, hdp]
  cases explicitFormat with
  | none => simpa [detectFormat, detectFormatSpec] using hrest filePath
  | some f =>
    by_cases hf : f = DocumentFormat.auto
    · subst hf
      simpa [detectFormat, detectFormatSpec] using hrest filePath
    · simp [detectFormat, detectFormatSpec, hf]

/-- C5: decoding with format `json` when the text does not parse as JSON,
and with format `yaml` when the text does not parse as YAML, fails with a
decode error; no `ParsedDocument` is returned in either case. -/
theorem claim_C5 {α : Type} (lib : ParserLib α) (text : String) :
    (∀ e, lib.jsonParse text = Except.error e →
      parseDocument lib text none (some DocumentFormat.json) =
        Except.error ("Failed to parse JSON: " ++ e)) ∧
    (∀ e, lib.yamlParse text = Except.error e →
      parseDocument lib text none (some DocumentFormat.yaml) =
        Except.error ("Failed to parse YAML: " ++ e)) := by
  constructor
  · intro e he
    simp [parseDocument, detectFormat, parseJSON, he]
  · intro e he
    simp [parseDocument, detectFormat, parseYAML, he]

theorem claim_C5_witness :
    parseDocument failLib "\x7b oops" none (some DocumentFormat.json) =
      Except.error ("Failed to parse JSON: " ++ "Unexpected token") ∧
    parseDocument failLib ": oops" none (some DocumentFormat.yaml) =
      Except.error ("Failed to parse YAML: " ++ "bad indentation") :=
  ⟨(claim_C5 failLib "\x7b oops").1 "Unexpected token" rfl,
   (claim_C5 failLib ": oops").2 "bad indentation" rfl⟩

/-- C6: decoding a markdown document made of a delimited metadata
preamble followed by a body yields the preamble key-values as metadata
and the trimmed body as content; decoding the body alone yields the same
content and an empty metadata mapping. -/
theorem claim_C6 {α : Type} (lib : ParserLib α) (pre body : String)
    (hpre : ∀ l ∈ splitOnChar '\n' pre.data, l ≠ ['-', '-', '-'])
    (hbody : (splitOnChar '\n' body.data).headD [] ≠ ['-', '-', '-']) :
    parseDocument lib ("---\n" ++ pre ++ "\n---\n" ++ body) none (some DocumentFormat.markdown) =
      Except.ok ⟨DocumentFormat.markdown, DocContent.str (jsTrim body), some (lib.yamlKV pre),
        "---\n" ++ pre ++ "\n---\n" ++ body⟩ ∧
    parseDocument lib body none (some DocumentFormat.markdown) =
      Except.ok ⟨DocumentFormat.markdown, DocContent.str (jsTrim body), some [], body⟩ := by
  constructor
  · simp [parseDocument, detectFormat, parseMarkdown, matter_preamble lib.yamlKV pre body hpre]
  · simp [parseDocument, detectFormat, parseMarkdown, matter_no_preamble lib.yamlKV body hbody]

theorem claim_C6_witness :
    (∀ l ∈ splitOnChar '\n' ("title: Report\nseverity: high" : String).data,
      l ≠ ['-', '-', '-']) ∧
    (splitOnChar '\n' ("Body line one.\nBody line two." : String).data).headD [] ≠
      ['-', '-', '-'] ∧
    (parseDocument failLib
        ("---\n" ++ "title: Report\nseverity: high" ++ "\n---\n" ++ "Body line one.\nBody line two.")
        none (some DocumentFormat.markdown) =
      Except.ok ⟨DocumentFormat.markdown,
        DocContent.str (jsTrim ("Body line one.\nBody line two." : String)),
        some (failLib.yamlKV "title: Report\nseverity: high"),
        "---\n" ++ "title: Report\nseverity: high" ++ "\n---\n" ++ "Body line one.\nBody line two."⟩) :=
  ⟨by decide, by decide,
   (claim_C6 failLib "title: Report\nseverity: high" "Body line one.\nBody line two."
      (by decide) (by decide)).1⟩

theorem string_ext (s t : String) (h : s.data = t.data) : s = t :=
  congrArg String.mk h

theorem string_append_empty (s : String) : s ++ "" = s := by
  apply string_ext
  simp [string_data_append]

theorem notFoundReason_ne_empty (x : String) : notFoundReason x ≠ "" := by
  intro h
  have h2 := congrArg String.data h
  have hnil : ("" : String).data = [] := rfl
  simp only [notFoundReason, string_data_append, hnil] at h2
  have h3 := (List.append_eq_nil.mp (List.append_eq_nil.mp h2).1).1
  exact absurd h3 (by decide)

/-- The reason message on a 404 with a valid token contains `not found`. -/
theorem notFoundReason_has_not_found (x : String) :
    ∃ a b, notFoundReason x = a ++ "not found" ++ b := by
  refine ⟨"Repository ",
    " or token doesn\x27t have access. Token user: " ++ x ++
      ". Ensure token has \x27repo\x27 scope for private repositories.", ?_⟩
  apply string_ext
  simp only [notFoundReason, string_data_append, List.append_assoc]
  simp

/-- The reason message on a 404 with a valid token contains the resolved
identity. -/
theorem notFoundReason_has_user (u : String) :
    ∃ a b, notFoundReason (jsOrStr (some u) "unknown") = a ++ u ++ b := by
  by_cases hu : u = ""
  · subst hu
    exact ⟨notFoundReason (jsOrStr (some "") "unknown"), "",
      by rw [string_append_empty, string_append_empty]⟩
  · refine ⟨"Repository not found or token doesn\x27t have access. Token user: ",
      ". Ensure token has \x27repo\x27 scope for private repositories.", ?_⟩
    simp [notFoundReason, jsOrStr, hu]

/-- C2 (amended): on a 404 from the repository lookup, `checkAccess`
re-checks the credential (when that re-check itself completes): an
invalid credential yields the invalid-or-expired reason, a valid one a
reason containing `not found` and the resolved identity.  Any other
lookup failure yields `accessible: false` carrying the raw
message when it is non-empty, and `Unknown error` otherwise. -/
theorem claim_C2 (env : Env) (owner repo : String) (e : JsError)
    (h : env.reposGet owner repo = Except.error e) :
    (e.status = some 404 →
      ∀ ti, verifyToken env = Except.ok ti →
        (ti.valid = false →
          checkRepositoryAccess env owner repo =
            Except.ok ⟨false, some "Token is invalid or expired"⟩) ∧
        (ti.valid = true →
          checkRepositoryAccess env owner repo =
            Except.ok ⟨false, some (notFoundReason (jsOrStr ti.user "unknown"))⟩ ∧
          (∃ a b, notFoundReason (jsOrStr ti.user "unknown") = a ++ "not found" ++ b) ∧
          (∀ u, ti.user = some u →
            ∃ a b, notFoundReason (jsOrStr ti.user "unknown") = a ++ u ++ b))) ∧
    (e.status ≠ some 404 →
      checkRepositoryAccess env owner repo =
        Except.ok ⟨false, some (if e.message = "" then "Unknown error" else e.message)⟩) := by
  constructor
  · intro h404 ti hti
    constructor
    · intro hvalid
      simp [checkRepositoryAccess, h, h404, hti, hvalid]
    · intro hvalid
      refine ⟨by simp [checkRepositoryAccess, h, h404, hti, hvalid], ?_, ?_⟩
      · exact notFoundReason_has_not_found _
      · intro u hu
        rw [hu]
        exact notFoundReason_has_user u
  · intro h404
    simp [checkRepositoryAccess, h, h404, jsOrStr]

/-- C2 counterexample: a non-404 lookup failure whose raw message is the
empty string yields the reason `Unknown error`, not that raw message —
the code falls back to a fixed message on a falsy `error.message`. -/
theorem claim_C2_counterexample :
    envC2cex.reposGet "owner" "repo" = Except.error ⟨some 500, ""⟩ ∧
    checkRepositoryAccess envC2cex "owner" "repo" =
      Except.ok ⟨false, some "Unknown error"⟩ ∧
    ("Unknown error" : String) ≠ "" := by
  refine ⟨rfl, rfl, by decide⟩

theorem claim_C2_witness :
    checkRepositoryAccess envC2w "owner" "nonexistent" =
      Except.ok ⟨false, some (notFoundReason (jsOrStr (some "octo") "unknown"))⟩ ∧
    (∃ a b, notFoundReason (jsOrStr (some "octo") "unknown") = a ++ "not found" ++ b) ∧
    (∀ u, (some "octo" : Option String) = some u →
      ∃ a b, notFoundReason (jsOrStr (some "octo") "unknown") = a ++ u ++ b) :=
  ((claim_C2 envC2w "owner" "nonexistent" ⟨some 404, "Not Found"⟩ rfl).1 rfl
    ⟨true, some "octo"⟩ rfl).2 rfl

/-- C3: during a recursive walk, a failing subdirectory listing
contributes no entries and exactly its warning; the result of the walk is
still the concatenation of the contribution of every sibling (a partial
result returned as a normal success — the total return type carries no
error case, because every nested failure is converted to a warning). -/
theorem claim_C3 (env : Env) (owner repo : String) (fuel : Nat)
    (root branch : String) (items : List ContentItem) (item : ContentItem) (e : JsError)
    (hroot : env.getContentApi owner repo root (some branch) =
      Except.ok (ContentsResponse.listing items))
    (hmem : item ∈ items) (htype : item.type = "dir")
    (hfail : env.getContentApi owner repo item.path (some branch) = Except.error e) :
    itemResult env owner repo (fuel + 1) branch item =
      ([], [dirWarning item.path e.message]) ∧
    recursivelyGetFiles env owner repo (fuel + 2) root branch =
      (((items.map (itemResult env owner repo (fuel + 1) branch)).map Prod.fst).flatten,
       ((items.map (itemResult env owner repo (fuel + 1) branch)).map Prod.snd).flatten) ∧
    dirWarning item.path e.message ∈
      (recursivelyGetFiles env owner repo (fuel + 2) root branch).2 := by
  have h1 : itemResult env owner repo (fuel + 1) branch item =
      ([], [dirWarning item.path e.message]) := by
    simp [itemResult, htype, recursivelyGetFiles, hfail]
  have h2 := recursivelyGetFiles_listing env owner repo (fuel + 1) root branch items hroot
  refine ⟨h1, h2, ?_⟩
  rw [h2]
  refine List.mem_flatten.mpr ⟨[dirWarning item.path e.message], ?_, by simp⟩
  exact List.mem_map.mpr ⟨itemResult env owner repo (fuel + 1) branch item,
    List.mem_map_of_mem _ hmem, by rw [h1]⟩

theorem claim_C3_witness :
    recursivelyGetFiles envC3 "o" "r" 2 "docs" "main" =
      ([⟨some "docs/a.md", some "a.md", some "sha-a", some 3⟩,
        ⟨some "docs/b.txt", some "b.txt", some "sha-b", some 4⟩],
       [dirWarning "docs/secret" "Access forbidden"]) ∧
    dirWarning "docs/secret" "Access forbidden" ∈
      (recursivelyGetFiles envC3 "o" "r" 2 "docs" "main").2 :=
  ⟨by decide,
   (claim_C3 envC3 "o" "r" 0 "docs" "main"
     [⟨"file", "docs/a.md", "sha-a", 3, "a.md"⟩,
      ⟨"dir", "docs/secret", "sha-d", 0, "secret"⟩,
      ⟨"file", "docs/b.txt", "sha-b", 4, "b.txt"⟩]
     ⟨"dir", "docs/secret", "sha-d", 0, "secret"⟩
     ⟨some 403, "Access forbidden"⟩ rfl (by decide) rfl rfl).2.2⟩

theorem verifyToken_congr (env env2 : Env)
    (h : env.getAuthenticated = env2.getAuthenticated) :
    verifyToken env = verifyToken env2 := by
  simp [verifyToken, h]

theorem checkRepositoryAccess_congr (env env2 : Env) (owner repo : String)
    (h1 : env.reposGet = env2.reposGet)
    (h2 : env.getAuthenticated = env2.getAuthenticated) :
    checkRepositoryAccess env owner repo = checkRepositoryAccess env2 owner repo := by
  simp [checkRepositoryAccess, h1, verifyToken_congr env env2 h2]

/-- The guard never reports inaccessibility without a non-empty reason. -/
theorem checkRepositoryAccess_reason (env : Env) (owner repo : String) (ac : AccessResult)
    (h : checkRepositoryAccess env owner repo = Except.ok ac)
    (hacc : ac.accessible = false) :
    ∃ r, ac.reason = some r ∧ r ≠ "" := by
  cases hg : env.reposGet owner repo with
  | ok v =>
    have hcomp : checkRepositoryAccess env owner repo = Except.ok ⟨true, none⟩ := by
      simp [checkRepositoryAccess, hg]
    rw [hcomp] at h
    simp at h
    rw [← h] at hacc
    simp at hacc
  | error e =>
    by_cases h404 : e.status = some 404
    · cases hv : verifyToken env with
      | error e2 =>
        have hcomp : checkRepositoryAccess env owner repo = Except.error e2 := by
          simp [checkRepositoryAccess, hg, h404, hv]
        rw [hcomp] at h
        simp at h
      | ok ti =>
        by_cases hvalid : ti.valid = false
        · have hcomp : checkRepositoryAccess env owner repo =
              Except.ok ⟨false, some "Token is invalid or expired"⟩ := by
            simp [checkRepositoryAccess, hg, h404, hv, hvalid]
          rw [hcomp] at h
          simp at h
          exact ⟨"Token is invalid or expired", by rw [← h], by decide⟩
        · have hcomp : checkRepositoryAccess env owner repo =
              Except.ok ⟨false, some (notFoundReason (jsOrStr ti.user "unknown"))⟩ := by
            simp [checkRepositoryAccess, hg, h404, hv, hvalid]
          rw [hcomp] at h
          simp at h
          exact ⟨notFoundReason (jsOrStr ti.user "unknown"), by rw [← h],
            notFoundReason_ne_empty _⟩
    · have hcomp : checkRepositoryAccess env owner repo =
          Except.ok ⟨false, some (jsOrStr (some e.message) "Unknown error")⟩ := by
        simp [checkRepositoryAccess, hg, h404]
      rw [hcomp] at h
      simp at h
      refine ⟨jsOrStr (some e.message) "Unknown error", by rw [← h], ?_⟩
      simp only [jsOrStr]
      split
      · decide
      · assumption

/-- C4: when the access guard reports the repository inaccessible, the
tree walk fails with an error carrying the (non-empty) guard reason,
and the result is the same whatever the branch-resolution, tree and
content endpoints (and fuel and path) do — none of them is consulted —
so no partial listing is produced. -/
theorem claim_C4 (env : Env) (fuel : Nat) (owner repo path : String) (ac : AccessResult)
    (hc : checkRepositoryAccess env owner repo = Except.ok ac)
    (hacc : ac.accessible = false) :
    ∃ r, ac.reason = some r ∧ r ≠ "" ∧
      getRepositoryTree env fuel owner repo path = Except.error ⟨none, r⟩ ∧
      ∀ env2 fuel2 path2, env2.reposGet = env.reposGet →
        env2.getAuthenticated = env.getAuthenticated →
        getRepositoryTree env2 fuel2 owner repo path2 = Except.error ⟨none, r⟩ := by
  obtain ⟨r, hr, hrne⟩ := checkRepositoryAccess_reason env owner repo ac hc hacc
  refine ⟨r, hr, hrne, ?_, ?_⟩
  · simp [getRepositoryTree, hc, hacc, hr, jsOrStr, hrne]
  · intro env2 fuel2 path2 h1 h2
    have hc2 : checkRepositoryAccess env2 owner repo = Except.ok ac := by
      rw [checkRepositoryAccess_congr env2 env owner repo h1 h2]
      exact hc
    simp [getRepositoryTree, hc2, hacc, hr, jsOrStr, hrne]

theorem claim_C4_witness :
    ∃ r, (AccessResult.mk false (some (notFoundReason (jsOrStr (some "octo") "unknown")))).reason
        = some r ∧ r ≠ "" ∧
      getRepositoryTree envC4 3 "o" "r" "docs" = Except.error ⟨none, r⟩ ∧
      ∀ env2 fuel2 path2, env2.reposGet = envC4.reposGet →
        env2.getAuthenticated = envC4.getAuthenticated →
        getRepositoryTree env2 fuel2 "o" "r" path2 = Except.error ⟨none, r⟩ :=
  claim_C4 envC4 3 "o" "r" "docs"
    ⟨false, some (notFoundReason (jsOrStr (some "octo") "unknown"))⟩ rfl rfl

/-- C7: with a valid credential and a completed walk, scan returns
exactly the walked entries whose lowercase path extension is in the
allow-list, each enriched with the
raw-content locator composed from owner, repo, branch and path. -/
theorem claim_C7 (env : Env) (fuel : Nat) (owner repo : String)
    (tree : List TreeEntry) (branch u : String)
    (hv : verifyToken env = Except.ok ⟨true, some u⟩)
    (ht : getRepositoryTree env fuel owner repo "" = Except.ok (tree, branch)) :
    scanRepository env fuel owner repo "" defaultExtensions =
      Except.ok (tree.filterMap (scanSelect owner repo branch defaultExtensions)) ∧
    ∀ f, f ∈ tree.filterMap (scanSelect owner repo branch defaultExtensions) ↔
      ∃ item, item ∈ tree ∧
        getFileExtension (jsOrStr item.path (jsOrStr item.name "")) ∈ defaultExtensions ∧
        f = ⟨jsOrStr item.path (jsOrStr item.name ""), item.size.getD 0, jsOrStr item.sha "",
          rawUrl owner repo branch (jsOrStr item.path (jsOrStr item.name ""))⟩ := by
  constructor
  · simp [scanRepository, hv, ht]
  · intro f
    rw [List.mem_filterMap]
    constructor
    · rintro ⟨item, hitem, hsel⟩
      refine ⟨item, hitem, ?_⟩
      simp only [scanSelect] at hsel
      by_cases hext : getFileExtension (jsOrStr item.path (jsOrStr item.name "")) ∈
          defaultExtensions
      · rw [if_pos hext] at hsel
        exact ⟨hext, (Option.some.inj hsel).symm⟩
      · rw [if_neg hext] at hsel
        exact absurd hsel (by simp)
    · rintro ⟨item, hitem, hext, hf⟩
      exact ⟨item, hitem, by simp [scanSelect, hext, hf]⟩

theorem claim_C7_witness :
    verifyToken envScan = Except.ok ⟨true, some "octo"⟩ ∧
    getRepositoryTree envScan 1 "owner" "repo" "" = Except.ok (treeScan, "main") ∧
    scanRepository envScan 1 "owner" "repo" "" defaultExtensions =
      Except.ok (treeScan.filterMap (scanSelect "owner" "repo" "main" defaultExtensions)) ∧
    treeScan.filterMap (scanSelect "owner" "repo" "main" defaultExtensions) =
      [⟨"a.md", 5, "sha-a", rawUrl "owner" "repo" "main" "a.md"⟩,
       ⟨"b.json", 6, "sha-b", rawUrl "owner" "repo" "main" "b.json"⟩] :=
  ⟨rfl, rfl,
   (claim_C7 envScan 1 "owner" "repo" treeScan "main" "octo" rfl rfl).1,
   by decide⟩

theorem string_data_mk (l : List Char) : (String.mk l).data = l := rfl

theorem map_mk_data (l : List String) : (l.map String.data).map String.mk = l := by
  induction l with
  | nil => rfl
  | cons x xs ih => simp [ih, string_mk_data]

theorem string_length_pos (s : String) (h : s ≠ "") : 0 < s.length := by
  cases s with
  | mk l =>
    cases l with
    | nil => exact absurd rfl h
    | cons c cs => simp [String.length]

theorem filter_len_pos (l : List String) (h : ∀ s ∈ l, s ≠ "") :
    l.filter (fun p => 0 < p.length) = l :=
  List.filter_eq_self.mpr fun s hs => decide_eq_true (string_length_pos s (h s hs))

theorem getLast?_cons_of_ne_nil (x : String) (l : List String) (h : l ≠ []) :
    (x :: l).getLast? = l.getLast? := by
  cases l with
  | nil => exact absurd rfl h
  | cons y ys => rfl

/-- The URL model resolves an `https` locator into its host and its
path (with leading slash). -/
theorem parseURL_https (host : String) (rest : List Char)
    (hh1 : host.data ≠ []) (hh2 : '/' ∉ host.data) :
    parseURL (String.mk (("https://" : String).data ++ (host.data ++ '/' :: rest))) =
      some ⟨host, String.mk ('/' :: rest)⟩ := by
  unfold parseURL
  rw [string_data_mk, dropLead_append]
  show mkURL (host.data ++ '/' :: rest) =
    some (URLParts.mk host (String.mk ('/' :: rest)))
  unfold mkURL
  rw [hostSplit_append _ _ hh2]
  show (if host.data = [] then none
      else some (URLParts.mk (String.mk host.data) (String.mk ('/' :: rest)))) =
    some (URLParts.mk host (String.mk ('/' :: rest)))
  rw [if_neg hh1, string_mk_data]

/-- Segment computation for a well-formed raw-content path: the leading
empty piece is dropped and the segments come back whole. -/
theorem urlSegs_raw (owner repo branch : String) (ps : List String)
    (ho1 : owner ≠ "") (ho2 : '/' ∉ owner.data)
    (hr1 : repo ≠ "") (hr2 : '/' ∉ repo.data)
    (hb1 : branch ≠ "") (hb2 : '/' ∉ branch.data)
    (hps1 : ps ≠ []) (hps2 : ∀ s ∈ ps, s ≠ "" ∧ '/' ∉ s.data) :
    urlSegs (String.mk ('/' ::
        (owner.data ++ '/' :: (repo.data ++ '/' :: (branch.data ++ '/' :: (joinSegs ps).data))))) =
      owner :: repo :: branch :: ps := by
  unfold urlSegs
  rw [string_data_mk, splitOnChar_cons_sep,
    splitOnChar_append_sep _ _ _ ho2, splitOnChar_append_sep _ _ _ hr2,
    splitOnChar_append_sep _ _ _ hb2]
  have hjoin : (joinSegs ps).data = joinChar '/' (ps.map String.data) := rfl
  rw [hjoin, splitOnChar_joinChar '/' (ps.map String.data)
    (by simpa using hps1)
    (by
      intro l hl
      obtain ⟨s, hs, rfl⟩ := List.mem_map.mp hl
      exact (hps2 s hs).2)]
  rw [List.map_cons, List.map_cons, List.map_cons, List.map_cons, map_mk_data,
    string_mk_data, string_mk_data, string_mk_data]
  rw [show (String.mk [] :: owner :: repo :: branch :: ps).filter (fun p => 0 < p.length) =
      (owner :: repo :: branch :: ps).filter (fun p => 0 < p.length) from rfl]
  refine filter_len_pos _ ?_
  intro s hs
  simp only [List.mem_cons] at hs
  rcases hs with rfl | rfl | rfl | hs'
  · exact ho1
  · exact hr1
  · exact hb1
  · exact (hps2 s hs').1

/-- The download stage on a well-formed raw-content locator is exactly
the authenticated `getFileContent` on the re-derived triple; the branch
segment never reaches it. -/
theorem fetchContent_rawUrl (env : Env) (owner repo branch : String) (ps : List String)
    (ho1 : owner ≠ "") (ho2 : '/' ∉ owner.data)
    (hr1 : repo ≠ "") (hr2 : '/' ∉ repo.data)
    (hb1 : branch ≠ "") (hb2 : '/' ∉ branch.data)
    (hps1 : ps ≠ []) (hps2 : ∀ s ∈ ps, s ≠ "" ∧ '/' ∉ s.data) :
    fetchContent env (rawUrl owner repo branch (joinSegs ps)) =
      match getFileContent env owner repo (joinSegs ps) with
      | Except.ok t => Except.ok (t, ps.getLast?)
      | Except.error e => Except.error (dlWrap e.message) := by
  have hstr : rawUrl owner repo branch (joinSegs ps) =
      String.mk (("https://" : String).data ++ (("raw.githubusercontent.com" : String).data ++
        '/' :: (owner.data ++ '/' ::
          (repo.data ++ '/' :: (branch.data ++ '/' :: (joinSegs ps).data))))) := by
    apply string_ext
    simp [rawUrl, string_data_append, string_data_mk]
  have hparse : parseURL (rawUrl owner repo branch (joinSegs ps)) =
      some ⟨"raw.githubusercontent.com",
        String.mk ('/' :: (owner.data ++ '/' ::
          (repo.data ++ '/' :: (branch.data ++ '/' :: (joinSegs ps).data))))⟩ := by
    rw [hstr]
    exact parseURL_https "raw.githubusercontent.com" _ (by decide) (by decide)
  have hsegs := urlSegs_raw owner repo branch ps ho1 ho2 hr1 hr2 hb1 hb2 hps1 hps2
  have hlast : (owner :: repo :: branch :: ps).getLast? = ps.getLast? := by
    rw [getLast?_cons_of_ne_nil owner _ (by simp),
      getLast?_cons_of_ne_nil repo _ (by simp),
      getLast?_cons_of_ne_nil branch _ hps1]
  have hlen : 4 ≤ (owner :: repo :: branch :: ps).length := by
    have hpos := List.length_pos.mpr hps1
    simp only [List.length_cons]
    omega
  simp only [fetchContent, hparse, hsegs, hlast, hlen, List.headD_cons,
    List.drop_succ_cons, List.drop_zero, if_true, eq_self_iff_true, ite_true]

/-- C8: for a locator on the raw-content host whose path is
`owner/repo/branch` followed by at least one further segment, the
download stage of the handler returns exactly the text of the authenticated
get-content retrieval with the re-derived `(owner, repo, path)` (base64
already decoded inside it), and the branch segment has no effect on the
result. -/
theorem claim_C8 (env : Env) (owner repo branch : String) (ps : List String)
    (ho1 : owner ≠ "") (ho2 : '/' ∉ owner.data)
    (hr1 : repo ≠ "") (hr2 : '/' ∉ repo.data)
    (hb1 : branch ≠ "") (hb2 : '/' ∉ branch.data)
    (hps1 : ps ≠ []) (hps2 : ∀ s ∈ ps, s ≠ "" ∧ '/' ∉ s.data) :
    (∀ t, getFileContent env owner repo (joinSegs ps) = Except.ok t →
      fetchContent env (rawUrl owner repo branch (joinSegs ps)) =
        Except.ok (t, ps.getLast?)) ∧
    ∀ branch2, branch2 ≠ "" → '/' ∉ branch2.data →
      fetchContent env (rawUrl owner repo branch (joinSegs ps)) =
        fetchContent env (rawUrl owner repo branch2 (joinSegs ps)) := by
  constructor
  · intro t ht
    rw [fetchContent_rawUrl env owner repo branch ps ho1 ho2 hr1 hr2 hb1 hb2 hps1 hps2, ht]
  · intro branch2 hb1' hb2'
    rw [fetchContent_rawUrl env owner repo branch ps ho1 ho2 hr1 hr2 hb1 hb2 hps1 hps2,
      fetchContent_rawUrl env owner repo branch2 ps ho1 ho2 hr1 hr2 hb1' hb2' hps1 hps2]

theorem claim_C8_witness :
    getFileContent envC8 "ownerX" "repoY" (joinSegs ["docs", "report.md"]) =
      Except.ok "hello world" ∧
    fetchContent envC8 (rawUrl "ownerX" "repoY" "main" (joinSegs ["docs", "report.md"])) =
      Except.ok ("hello world", some "report.md") ∧
    rawUrl "ownerX" "repoY" "main" (joinSegs ["docs", "report.md"]) =
      "https://raw.githubusercontent.com/ownerX/repoY/main/docs/report.md" :=
  ⟨rfl,
   (claim_C8 envC8 "ownerX" "repoY" "main" ["docs", "report.md"]
      (by decide) (by decide) (by decide) (by decide) (by decide) (by decide)
      (by decide) (by decide)).1 "hello world" rfl,
   by decide⟩

/-- C9: a malformed locator (not a URL, or a raw-content-host locator
with fewer than four segments) fails the download stage with a fetch
error whatever the network endpoints would answer (no network call can
influence the result); a non-raw-host locator with a non-success
response also fails with a fetch error rather than returning content. -/
theorem claim_C9 (env env2 : Env) (u : String) :
    (parseURL u = none →
      fetchContent env u = Except.error ⟨none, "Invalid downloadUrl format: " ++ u⟩ ∧
      fetchContent env u = fetchContent env2 u) ∧
    (∀ url, parseURL u = some url → url.hostname = "raw.githubusercontent.com" →
      (urlSegs url.pathname).length < 4 →
      fetchContent env u = Except.error (dlWrap "Invalid raw.githubusercontent.com URL format") ∧
      fetchContent env u = fetchContent env2 u) ∧
    (∀ url response, parseURL u = some url →
      url.hostname ≠ "raw.githubusercontent.com" →
      env.fetchUrl u = Except.ok response → response.ok = false →
      fetchContent env u =
        Except.error (dlWrap ("Failed to download file from URL: " ++ response.statusText))) := by
  refine ⟨?_, ?_, ?_⟩
  · intro hn
    constructor
    · simp [fetchContent, hn]
    · simp [fetchContent, hn]
  · intro url hs hhost hlen
    have hnle : ¬ 4 ≤ (urlSegs url.pathname).length := Nat.not_le.mpr hlen
    constructor
    · simp [fetchContent, hs, hhost, hnle]
    · simp [fetchContent, hs, hhost, hnle]
  · intro url response hs hhost hf hok
    simp [fetchContent, hs, hhost, hf, hok]

theorem claim_C9_witness :
    fetchContent envC9 "notaurl" =
      Except.error ⟨none, "Invalid downloadUrl format: " ++ "notaurl"⟩ ∧
    fetchContent envC9 "https://raw.githubusercontent.com/a/b" =
      Except.error (dlWrap "Invalid raw.githubusercontent.com URL format") ∧
    fetchContent envC9 "https://example.com/x" =
      Except.error (dlWrap ("Failed to download file from URL: " ++ "Not Found")) :=
  ⟨((claim_C9 envC9 envC9 "notaurl").1 (by decide)).1,
   ((claim_C9 envC9 envC9 "https://raw.githubusercontent.com/a/b").2.1
     ⟨"raw.githubusercontent.com", "/a/b"⟩ (by decide) rfl (by decide)).1,
   (claim_C9 envC9 envC9 "https://example.com/x").2.2
     ⟨"example.com", "/x"⟩ ⟨false, "Not Found", ""⟩ (by decide) (by decide) rfl rfl⟩

/-- Every failure of `scanRepository` is wrapped with the scan context
(the whole body sits in one `try`). -/
theorem scanRepository_error_message (env : Env) (fuel : Nat) (owner repo path : String)
    (exts : List String) (e : JsError)
    (h : scanRepository env fuel owner repo path exts = Except.error e) :
    ∃ m, e.message = "Failed to scan repository: " ++ m := by
  cases hv : verifyToken env with
  | error e2 =>
    have hc : scanRepository env fuel owner repo path exts = Except.error (scanWrap e2) := by
      simp [scanRepository, hv]
    rw [hc] at h
    simp at h
    exact ⟨e2.message, by rw [← h]; rfl⟩
  | ok ti =>
    by_cases hvalid : ti.valid = false
    · have hc : scanRepository env fuel owner repo path exts =
          Except.error (scanWrap
            ⟨none, "GitHub token is invalid or expired. Please check your GITHUB_TOKEN."⟩) := by
        simp [scanRepository, hv, hvalid]
      rw [hc] at h
      simp at h
      exact ⟨"GitHub token is invalid or expired. Please check your GITHUB_TOKEN.",
        by rw [← h]; rfl⟩
    · cases ht : getRepositoryTree env fuel owner repo path with
      | error e2 =>
        have hc : scanRepository env fuel owner repo path exts =
            Except.error (scanWrap e2) := by
          simp [scanRepository, hv, hvalid, ht]
        rw [hc] at h
        simp at h
        exact ⟨e2.message, by rw [← h]; rfl⟩
      | ok pr =>
        obtain ⟨tree, branch⟩ := pr
        have hc : scanRepository env fuel owner repo path exts =
            Except.ok (tree.filterMap (scanSelect owner repo branch exts)) := by
          simp [scanRepository, hv, hvalid, ht]
        rw [hc] at h
        exact absurd h (by simp)

/-- A scan-context message is never the handler format error. -/
theorem scan_prefix_ne_repoFormatError (m : String) :
    "Failed to scan repository: " ++ m ≠ repoFormatError := by
  intro h
  have h2 := congrArg String.data h
  rw [string_data_append,
    show ("Failed to scan repository: " : String).data =
      'F' :: ("ailed to scan repository: " : String).data from by decide,
    List.cons_append,
    show (repoFormatError : String).data =
      'R' :: ("epository must be in format \"owner/repo\" (e.g., \"octocat/Hello-World\")" :
        String).data from by decide] at h2
  injection h2 with hc _
  exact absurd hc (by decide)

/-- Value of `parseRepoArg` on a two-piece split. -/
theorem parseRepoArg_pair (repository a b : String)
    (hab : repoParts repository = [a, b]) :
    parseRepoArg repository =
      (if jsTrim a = "" ∨ jsTrim b = "" then Except.error repoFormatError
       else Except.ok (jsTrim a, jsTrim b)) := by
  simp [parseRepoArg, hab]

/-- Value of `parseRepoArg` when the split does not have exactly two pieces. -/
theorem parseRepoArg_badlen (repository : String)
    (h : (repoParts repository).length ≠ 2) :
    parseRepoArg repository = Except.error repoFormatError := by
  simp [parseRepoArg, h]

/-- C10: the scan handler raises the `owner/repo` format error exactly
when splitting the repository argument on `/` and discarding empty
pieces does not yield exactly two pieces with non-empty trimmed forms;
consequently `/owner/repo/` and `owner//repo` are accepted and parsed as
`owner`/`repo`. -/
theorem claim_C10 (env : Env) (fuel : Nat) (repository : String)
    (path : Option String) (exts : Option (List String)) :
    ((∃ e, scanRepositoryHandler env fuel repository path exts = Except.error e ∧
        e.message = repoFormatError) ↔
      ¬ ((repoParts repository).length = 2 ∧ ∀ p ∈ repoParts repository, jsTrim p ≠ "")) ∧
    parseRepoArg "/owner/repo/" = Except.ok ("owner", "repo") ∧
    parseRepoArg "owner//repo" = Except.ok ("owner", "repo") := by
  refine ⟨?_, rfl, rfl⟩
  constructor
  · rintro ⟨e, he, hm⟩ ⟨hlen, hall⟩
    obtain ⟨a, b, hab⟩ := List.length_eq_two.mp hlen
    have ha : jsTrim a ≠ "" := hall a (by rw [hab]; exact List.mem_cons_self a [b])
    have hb : jsTrim b ≠ "" := hall b (by rw [hab]; simp)
    have hpa : parseRepoArg repository = Except.ok (jsTrim a, jsTrim b) := by
      rw [parseRepoArg_pair repository a b hab,
        if_neg (by rintro (h | h); exact ha h; exact hb h)]
    rw [show scanRepositoryHandler env fuel repository path exts =
        scanRepository env fuel (jsTrim a) (jsTrim b) (path.getD "") (exts.getD defaultExtensions)
      from by simp [scanRepositoryHandler, hpa]] at he
    obtain ⟨m, hmsg⟩ :=
      scanRepository_error_message env fuel (jsTrim a) (jsTrim b) (path.getD "")
        (exts.getD defaultExtensions) e he
    rw [hmsg] at hm
    exact scan_prefix_ne_repoFormatError m hm
  · intro hbad
    have hpe : parseRepoArg repository = Except.error repoFormatError := by
      by_cases hlen : (repoParts repository).length = 2
      · obtain ⟨a, b, hab⟩ := List.length_eq_two.mp hlen
        rw [parseRepoArg_pair repository a b hab]
        have hcase : jsTrim a = "" ∨ jsTrim b = "" := by
          by_contra hno
          push_neg at hno
          refine hbad ⟨hlen, ?_⟩
          intro p hp
          rw [hab] at hp
          simp only [List.mem_cons] at hp
          rcases hp with rfl | rfl | hp
          · exact hno.1
          · exact hno.2
          · cases hp
        rw [if_pos hcase]
      · exact parseRepoArg_badlen repository hlen
    exact ⟨⟨none, repoFormatError⟩, by simp [scanRepositoryHandler, hpe], rfl⟩

theorem claim_C10_witness :
    ∃ e, scanRepositoryHandler envC9 1 "owner-only" none none = Except.error e ∧
      e.message = repoFormatError :=
  ((claim_C10 envC9 1 "owner-only" none none).1).mpr (by decide)

end Mcpcode
